import Mathlib

/-!
Verification of the tooltip placement calculator in
`src/ui/views/components/tooltip.js`.

The embedding models the placement functions `getTooltipPosition`,
`getDimensions`, `getCurrentMouseOffset`, `getDefaultPosition` and
`calculateOffset` of the source file.  Geometry values (bounding boxes,
viewport sizes, computed edges) are rationals, which faithfully represent
the dyadic values appearing in the source (integer pixels and halves
obtained by division by 2).  JavaScript `parseInt` truncation toward zero
is `jsTrunc`.  JavaScript `NaN` contamination of the extra offsets (which
arises when a recognized offset key holds a value whose string form has no
leading integer) is modelled by `Option ℤ`/`Option ℚ` with `none` playing
the role of `NaN`; every arithmetic operation propagates `none` and every
comparison with `none` is false, as in JavaScript.

`JSON.parse` (used by `calculateOffset` on string-valued offsets) is
modelled by `jsonParse`, a fuel-based recursive-descent parser for JSON
values: objects, arrays, strings (with the common escapes), numbers
following the JSON grammar (optional minus, leading-zero-free integer
part, optional fraction, optional exponent), `true`, `false` and `null`.
A parsed number is stored as the exact value truncated toward zero to an
integer, which matches the net effect of the later string conversion and
`parseInt` on every value whose JavaScript string form is plain decimal.  The tooltip side argument `desiredPlace` is modelled by the
four-element type `Place`, per the documented input constraint of the
source (`top / right / bottom / left`).
-/

namespace Tooltip

/-- JavaScript values produced by `JSON.parse`, restricted to JSON data
(numbers are modelled as integers, see the file comment). -/
inductive JVal where
  | num (n : ℤ)
  | str (s : String)
  | bool (b : Bool)
  | null
  | arr (elems : List JVal)
  | obj (fields : List (String × JVal))

/-- Errors that `getTooltipPosition` can raise: a JSON syntax error from
`JSON.parse` on a malformed offset string, or the `TypeError` raised by
`defaultOffset[newPlace].l` when `newPlace` is left `undefined`. -/
inductive JsErr where
  | parseError
  | undefinedPlace
deriving DecidableEq

/-- The whitespace characters skipped by the JSON parser. -/
def isWsChar (c : Char) : Bool :=
  c = ' ' || c = '\t' || c = '\n' || c = '\r'

/-- Drop leading JSON whitespace. -/
def skipWs (cs : List Char) : List Char :=
  cs.dropWhile isWsChar

/-- The single-quote (apostrophe) character, written by its code point. -/
def singleQuoteChar : Char := Char.ofNat 39

/-- The double-quote character. -/
def doubleQuoteChar : Char := '"'

/-- Decode one JSON string escape character (the character following a
backslash).  The `\u` form is not modelled. -/
def unescapeChar (c : Char) : Option Char :=
  if c = '"' then some '"'
  else if c = '\\' then some '\\'
  else if c = '/' then some '/'
  else if c = 'n' then some '\n'
  else if c = 't' then some '\t'
  else if c = 'r' then some '\r'
  else if c = 'b' then some (Char.ofNat 8)
  else if c = 'f' then some (Char.ofNat 12)
  else none

/-- Parse the body of a JSON string after the opening quote; returns the
decoded characters and the input following the closing quote. -/
def parseStrChars : List Char → Option (List Char × List Char)
  | [] => none
  | c :: rest =>
    if c = '"' then some ([], rest)
    else if c = '\\' then
      match rest with
      | [] => none
      | e :: rest2 =>
        match unescapeChar e, parseStrChars rest2 with
        | some esc, some (s, r) => some (esc :: s, r)
        | _, _ => none
    else
      match parseStrChars rest with
      | some (s, r) => some (c :: s, r)
      | none => none

/-- Numeric value of a list of decimal digit characters, most significant
first. -/
def digitsVal (ds : List Char) : ℕ :=
  ds.foldl (fun a c => 10 * a + (c.toNat - 48)) 0

/-- Parse a nonempty run of leading decimal digits. -/
def parseDigits (cs : List Char) : Option (ℕ × List Char) :=
  let ds := cs.takeWhile Char.isDigit
  if ds.isEmpty then none
  else some (digitsVal ds, cs.dropWhile Char.isDigit)

/-- Parse the integer-part digit run of a JSON number.  JSON forbids
leading zeros: the run is a single `0` or starts with a nonzero digit. -/
def parseIntPart (cs : List Char) : Option (ℕ × List Char) :=
  let ds := cs.takeWhile Char.isDigit
  if ds.isEmpty then none
  else if ds.head? = some '0' ∧ ds.length ≠ 1 then none
  else some (digitsVal ds, cs.dropWhile Char.isDigit)

/-- Parse the optional fraction of a JSON number: a dot followed by a
nonempty digit run.  Returns the fraction's value, its digit count and
the remaining input; absence yields a zero fraction. -/
def parseFracPart (cs : List Char) : Option (ℕ × ℕ × List Char) :=
  match cs with
  | [] => some (0, 0, [])
  | c :: rest =>
    if c = '.' then
      match parseDigits rest with
      | none => none
      | some (F, r) => some (F, (rest.takeWhile Char.isDigit).length, r)
    else some (0, 0, c :: rest)

/-- Parse the optional exponent of a JSON number: `e` or `E`, an optional
sign, and a nonempty digit run; absence yields exponent zero. -/
def parseExpPart (cs : List Char) : Option (ℤ × List Char) :=
  match cs with
  | [] => some (0, [])
  | c :: rest =>
    if c = 'e' ∨ c = 'E' then
      match rest with
      | [] => none
      | c2 :: r2 =>
        if c2 = '+' then (parseDigits r2).map (fun p => ((p.1 : ℤ), p.2))
        else if c2 = '-' then (parseDigits r2).map (fun p => (-(p.1 : ℤ), p.2))
        else (parseDigits rest).map (fun p => ((p.1 : ℤ), p.2))
    else some (0, c :: rest)

/-- The integer magnitude of a JSON number with integer part `I`, fraction
value `F` over `d` digits and exponent `E`: the exact value
`(I + F / 10 ^ d) * 10 ^ E` truncated toward zero (the sign is applied by
the caller, so this matches JavaScript truncation of the signed value). -/
def jsonNumMag (I F d : ℕ) (E : ℤ) : ℕ :=
  if (d : ℤ) ≤ E then (I * 10 ^ d + F) * 10 ^ (E - (d : ℤ)).toNat
  else (I * 10 ^ d + F) / 10 ^ ((d : ℤ) - E).toNat

/-- Parse the magnitude of a JSON number: integer part, optional fraction
and optional exponent, evaluated to a truncated integer magnitude. -/
def parseNumMag (cs : List Char) : Option (ℕ × List Char) := do
  let (I, r1) ← parseIntPart cs
  let (F, d, r2) ← parseFracPart r1
  let (E, r3) ← parseExpPart r2
  pure (jsonNumMag I F d E, r3)

/-- Parse a JSON number with an optional leading minus sign. -/
def parseNumber (cs : List Char) : Option (ℤ × List Char) :=
  match cs with
  | [] => none
  | c :: rest =>
    if c = '-' then (parseNumMag rest).map (fun p => (-(p.1 : ℤ), p.2))
    else (parseNumMag cs).map (fun p => ((p.1 : ℤ), p.2))

/-- Insert a key/value pair into an object's field list with JavaScript
object semantics: an existing key is overwritten in place, a new key is
appended. -/
def objInsert (fields : List (String × JVal)) (k : String) (v : JVal) :
    List (String × JVal) :=
  if fields.any (fun kv => kv.1 == k) then
    fields.map (fun kv => if kv.1 == k then (kv.1, v) else kv)
  else
    fields ++ [(k, v)]

mutual

/-- Fuel-based JSON value parser (recursive descent). -/
def parseValue : ℕ → List Char → Option (JVal × List Char)
  | 0, _ => none
  | fuel + 1, cs =>
    match skipWs cs with
    | [] => none
    | c :: rest =>
      if c = '{' then
        match skipWs rest with
        | [] => none
        | c2 :: rest2 =>
          if c2 = '}' then some (.obj [], rest2)
          else parseMembers fuel (c2 :: rest2) []
      else if c = '[' then
        match skipWs rest with
        | [] => none
        | c2 :: rest2 =>
          if c2 = ']' then some (.arr [], rest2)
          else parseElements fuel (c2 :: rest2) []
      else if c = '"' then
        (parseStrChars rest).map (fun p => (.str ⟨p.1⟩, p.2))
      else if c = 't' then
        if rest.take 3 = ['r', 'u', 'e'] then some (.bool true, rest.drop 3)
        else none
      else if c = 'f' then
        if rest.take 4 = ['a', 'l', 's', 'e'] then some (.bool false, rest.drop 4)
        else none
      else if c = 'n' then
        if rest.take 3 = ['u', 'l', 'l'] then some (.null, rest.drop 3)
        else none
      else
        (parseNumber (c :: rest)).map (fun p => (.num p.1, p.2))

/-- Parse the members of a JSON object after the opening brace (nonempty
case), accumulating parsed fields. -/
def parseMembers : ℕ → List Char → List (String × JVal) →
    Option (JVal × List Char)
  | 0, _, _ => none
  | fuel + 1, cs, acc =>
    match skipWs cs with
    | [] => none
    | c :: rest =>
      if c = '"' then
        match parseStrChars rest with
        | none => none
        | some (kcs, r1) =>
          match skipWs r1 with
          | [] => none
          | c2 :: r2 =>
            if c2 = ':' then
              match parseValue fuel r2 with
              | none => none
              | some (v, r3) =>
                match skipWs r3 with
                | [] => none
                | c3 :: r4 =>
                  if c3 = ',' then parseMembers fuel r4 (objInsert acc ⟨kcs⟩ v)
                  else if c3 = '}' then some (.obj (objInsert acc ⟨kcs⟩ v), r4)
                  else none
            else none
      else none

/-- Parse the elements of a JSON array after the opening bracket (nonempty
case), accumulating parsed elements. -/
def parseElements : ℕ → List Char → List JVal → Option (JVal × List Char)
  | 0, _, _ => none
  | fuel + 1, cs, acc =>
    match parseValue fuel cs with
    | none => none
    | some (v, r1) =>
      match skipWs r1 with
      | [] => none
      | c2 :: r2 =>
        if c2 = ',' then parseElements fuel r2 (acc ++ [v])
        else if c2 = ']' then some (.arr (acc ++ [v]), r2)
        else none

end

/-- Model of `JSON.parse`: parse one JSON value and require that only
whitespace remains. -/
def jsonParse (s : String) : Option JVal :=
  match parseValue (s.data.length + 1) s.data with
  | some (v, rest) => if (skipWs rest).isEmpty then some v else none
  | none => none

mutual

/-- JavaScript `String(v)` conversion for the values that can appear as
entries of a parsed offset: decimal for numbers, the string itself for
strings, `true`/`false`/`null` spelled out, comma-joined elements for
arrays, and the generic object tag for objects. -/
def jsToString : JVal → String
  | .num n => toString n
  | .str s => s
  | .bool b => cond b "true" "false"
  | .null => "null"
  | .arr xs => String.intercalate "," (jsToStringElems xs)
  | .obj _ => "[object Object]"

/-- Stringify array elements the way JavaScript `Array.prototype.join`
does: `null` becomes the empty string. -/
def jsToStringElems : List JVal → List String
  | [] => []
  | .null :: rest => "" :: jsToStringElems rest
  | v :: rest => jsToString v :: jsToStringElems rest

end

/-- JavaScript `parseInt(s, 10)`: skip leading whitespace, read an optional
sign and then a nonempty run of decimal digits; `none` models `NaN`. -/
def jsParseInt (s : String) : Option ℤ :=
  let cs := s.data.dropWhile isWsChar
  match cs with
  | [] => none
  | c :: rest =>
    if c = '-' then
      (parseDigits rest).map (fun p => -(p.1 : ℤ))
    else if c = '+' then
      (parseDigits rest).map (fun p => (p.1 : ℤ))
    else
      (parseDigits cs).map (fun p => (p.1 : ℤ))

/-- Model of `parseInt(offset[key], 10)` applied to a parsed offset entry:
convert the value to a string and parse its leading integer. -/
def parseIntOfValue (v : JVal) : Option ℤ :=
  jsParseInt (jsToString v)

/-- The `for (let key in offset)` enumeration: own enumerable keys of an
object, index keys of an array or a primitive string, nothing for other
primitives. -/
def forInEntries : JVal → List (String × JVal)
  | .obj fields => fields
  | .arr xs => xs.enum.map (fun p => (toString p.1, p.2))
  | .str s => (List.range s.length).map
      (fun i => (toString i, JVal.str ⟨[s.data.getD i ' ']⟩))
  | _ => []

/-- The pair `{extraOffsetX, extraOffsetY}` accumulated by
`calculateOffset`; `none` models `NaN`. -/
structure Extras where
  extraOffsetX : Option ℤ
  extraOffsetY : Option ℤ
deriving DecidableEq

/-- NaN-propagating addition. -/
def nadd : Option ℤ → Option ℤ → Option ℤ
  | some a, some b => some (a + b)
  | _, _ => none

/-- NaN-propagating subtraction. -/
def nsub : Option ℤ → Option ℤ → Option ℤ
  | some a, some b => some (a - b)
  | _, _ => none

/-- One iteration of the key loop of `calculateOffset`. -/
def offsetStep (acc : Extras) (entry : String × JVal) : Extras :=
  if entry.1 = "top" then
    { acc with extraOffsetY := nsub acc.extraOffsetY (parseIntOfValue entry.2) }
  else if entry.1 = "bottom" then
    { acc with extraOffsetY := nadd acc.extraOffsetY (parseIntOfValue entry.2) }
  else if entry.1 = "left" then
    { acc with extraOffsetX := nsub acc.extraOffsetX (parseIntOfValue entry.2) }
  else if entry.1 = "right" then
    { acc with extraOffsetX := nadd acc.extraOffsetX (parseIntOfValue entry.2) }
  else acc

/-- The key loop of `calculateOffset` over an arbitrary JavaScript value,
starting from zero extra offsets. -/
def loopOffsets (v : JVal) : Extras :=
  (forInEntries v).foldl offsetStep ⟨some 0, some 0⟩

/-- The `offset` argument of the calculator: either a string (detected by
the `[object String]` type test of the source) or any other JavaScript
value, iterated directly. -/
inductive OffsetArg where
  | str (s : String)
  | val (v : JVal)

/-- Replace a single quote by a double quote, leaving other characters
unchanged. -/
def rqChar (c : Char) : Char :=
  if c = singleQuoteChar then doubleQuoteChar else c

/-- The quote normalization of the source: replace every single quote by a
double quote before `JSON.parse`. -/
def replaceQuotes (s : String) : String :=
  ⟨s.data.map rqChar⟩

/-- Model of `calculateOffset`: strings are quote-normalized and parsed as
JSON (a parse failure propagates), then the key loop accumulates the extra
offsets. -/
def calculateOffset : OffsetArg → Except JsErr Extras
  | .str s =>
    match jsonParse (replaceQuotes s) with
    | none => .error .parseError
    | some v => .ok (loopOffsets v)
  | .val v => .ok (loopOffsets v)

/-- JavaScript `parseInt` applied to a number: truncation toward zero. -/
def jsTrunc (x : ℚ) : ℤ :=
  if x < 0 then ⌈x⌉ else ⌊x⌋

/-- A raw bounding box as returned by `getBoundingClientRect`. -/
structure Rect where
  width : ℚ
  height : ℚ
  top : ℚ
  left : ℚ
deriving DecidableEq

/-- The integer dimensions produced by `getDimensions` (each raw field run
through `parseInt`). -/
structure Dims where
  width : ℤ
  height : ℤ
  top : ℤ
  left : ℤ
deriving DecidableEq

/-- Model of `getDimensions`. -/
def getDimensions (r : Rect) : Dims :=
  ⟨jsTrunc r.width, jsTrunc r.height, jsTrunc r.top, jsTrunc r.left⟩

/-- The `{mouseX, mouseY}` anchor produced by `getCurrentMouseOffset`: the
center of the target element. -/
structure MouseOffset where
  mouseX : ℚ
  mouseY : ℚ
deriving DecidableEq

/-- Model of `getCurrentMouseOffset`. -/
def getCurrentMouseOffset (currentTarget : Rect) : MouseOffset :=
  let d := getDimensions currentTarget
  ⟨(d.left : ℚ) + (d.width : ℚ) / 2, (d.top : ℚ) + (d.height : ℚ) / 2⟩

/-- The four tooltip sides. -/
inductive Place where
  | top
  | bottom
  | left
  | right
deriving DecidableEq

/-- The per-side entry `{l, r, t, b}` of the default offset table. -/
structure EdgeOffsets where
  l : ℚ
  r : ℚ
  t : ℚ
  b : ℚ
deriving DecidableEq

/-- The triangle-pointer height constant of the source. -/
def triangleHeight : ℚ := 6

/-- Model of `getDefaultPosition`: the per-side offset table relative to
the target center. -/
def getDefaultPosition (targetWidth targetHeight tipWidth tipHeight : ℤ) :
    Place → EdgeOffsets
  | .top =>
    { l := -((tipWidth : ℚ) / 2)
      r := (tipWidth : ℚ) / 2
      t := -((targetHeight : ℚ) / 2 + (tipHeight : ℚ) + triangleHeight)
      b := -((targetHeight : ℚ) / 2) }
  | .bottom =>
    { l := -((tipWidth : ℚ) / 2)
      r := (tipWidth : ℚ) / 2
      t := (targetHeight : ℚ) / 2 + triangleHeight
      b := (targetHeight : ℚ) / 2 + (tipHeight : ℚ) }
  | .left =>
    { l := -((tipWidth : ℚ) + (targetWidth : ℚ) / 2)
      r := -((targetWidth : ℚ) / 2) + triangleHeight
      t := -((tipHeight : ℚ) / 2)
      b := (tipHeight : ℚ) / 2 }
  | .right =>
    { l := (targetWidth : ℚ) / 2 + triangleHeight
      r := (tipWidth : ℚ) + (targetWidth : ℚ) / 2
      t := -((tipHeight : ℚ) / 2)
      b := (tipHeight : ℚ) / 2 }

/-- The inputs of one placement computation: the tooltip content node, the
trigger element (the `currentTarget` of the event) and the live viewport
size (`window.innerWidth` / `window.innerHeight`). -/
structure TooltipEnv where
  node : Rect
  target : Rect
  innerWidth : ℚ
  innerHeight : ℚ
deriving DecidableEq

/-- The default offset table of a placement computation, applied to the
truncated dimensions of the target and the tooltip node. -/
def defaultOffsetOf (env : TooltipEnv) : Place → EdgeOffsets :=
  getDefaultPosition (getDimensions env.target).width
    (getDimensions env.target).height
    (getDimensions env.node).width
    (getDimensions env.node).height

/-- Model of `getTipOffsetLeft`: the absolute left edge of a side; `none`
models `NaN` contamination from the extra offsets. -/
def tipOffsetLeft (env : TooltipEnv) (ex : Extras) (p : Place) : Option ℚ :=
  ex.extraOffsetX.map (fun (e : ℤ) =>
    (getCurrentMouseOffset env.target).mouseX + (defaultOffsetOf env p).l + (e : ℚ))

/-- Model of `getTipOffsetRight`. -/
def tipOffsetRight (env : TooltipEnv) (ex : Extras) (p : Place) : Option ℚ :=
  ex.extraOffsetX.map (fun (e : ℤ) =>
    (getCurrentMouseOffset env.target).mouseX + (defaultOffsetOf env p).r + (e : ℚ))

/-- Model of `getTipOffsetTop`. -/
def tipOffsetTop (env : TooltipEnv) (ex : Extras) (p : Place) : Option ℚ :=
  ex.extraOffsetY.map (fun (e : ℤ) =>
    (getCurrentMouseOffset env.target).mouseY + (defaultOffsetOf env p).t + (e : ℚ))

/-- Model of `getTipOffsetBottom`. -/
def tipOffsetBottom (env : TooltipEnv) (ex : Extras) (p : Place) : Option ℚ :=
  ex.extraOffsetY.map (fun (e : ℤ) =>
    (getCurrentMouseOffset env.target).mouseY + (defaultOffsetOf env p).b + (e : ℚ))

/-- NaN-aware strict less-than against a real bound: false when the left
side is `NaN`, as in JavaScript. -/
def qltB : Option ℚ → ℚ → Bool
  | some x, c => decide (x < c)
  | none, _ => false

/-- NaN-aware strict greater-than against a real bound. -/
def qgtB : Option ℚ → ℚ → Bool
  | some x, c => decide (x > c)
  | none, _ => false

/-- Model of the `outside` predicate of the source. -/
def outside (env : TooltipEnv) (ex : Extras) (p : Place) : Bool :=
  qltB (tipOffsetLeft env ex p) 0 ||
  qgtB (tipOffsetRight env ex p) env.innerWidth ||
  qltB (tipOffsetTop env ex p) 0 ||
  qgtB (tipOffsetBottom env ex p) env.innerHeight

/-- Model of the `inside` predicate of the source. -/
def inside (env : TooltipEnv) (ex : Extras) (p : Place) : Bool :=
  !(outside env ex p)

/-- The fixed candidate order of the source. -/
def placeOrder : List Place := [.top, .bottom, .left, .right]

/-- Model of `insideList`. -/
def insideList (env : TooltipEnv) (ex : Extras) : List Place :=
  placeOrder.filter (inside env ex)

/-- Model of the `newPlace` selection of the source; `none` models the
`undefined` left by the two guarded assignments when no branch fires. -/
def newPlace (env : TooltipEnv) (ex : Extras) (desiredPlace : Place) :
    Option Place :=
  if inside env ex desiredPlace then some desiredPlace
  else if decide ((insideList env ex).length > 0) && outside env ex desiredPlace then
    (insideList env ex).head?
  else none

/-- The `{left, top}` position of the result; `none` models `NaN`. -/
structure Position where
  left : Option ℤ
  top : Option ℤ
deriving DecidableEq

/-- The `{place, position}` result of `getTooltipPosition`. -/
structure PlacementResult where
  place : Place
  position : Position
deriving DecidableEq

/-- The position block of the returned object: the chosen side's absolute
left/top edges made relative to the raw bounding-box corner of the target
and truncated by `parseInt`. -/
def positionFor (env : TooltipEnv) (ex : Extras) (p : Place) : Position :=
  { left := (tipOffsetLeft env ex p).map (fun v => jsTrunc (v - env.target.left))
    top := (tipOffsetTop env ex p).map (fun v => jsTrunc (v - env.target.top)) }

/-- Model of `getTooltipPosition`.  A parse failure in `calculateOffset`
propagates; when `newPlace` is left undefined the table lookup
`defaultOffset[newPlace].l` raises, modelled by `JsErr.undefinedPlace`. -/
def getTooltipPosition (env : TooltipEnv) (desiredPlace : Place)
    (offset : OffsetArg) : Except JsErr PlacementResult :=
  match calculateOffset offset with
  | .error e => .error e
  | .ok ex =>
    match newPlace env ex desiredPlace with
    | none => .error .undefinedPlace
    | some p => .ok { place := p, position := positionFor env ex p }

/-! ### Reduction lemmas for the placement computation -/

lemma outside_extras_iff (env : TooltipEnv) (ox oy : ℤ) (p : Place) :
    outside env ⟨some ox, some oy⟩ p = true ↔
      ((getCurrentMouseOffset env.target).mouseX + (defaultOffsetOf env p).l + (ox : ℚ) < 0 ∨
       (getCurrentMouseOffset env.target).mouseX + (defaultOffsetOf env p).r + (ox : ℚ) > env.innerWidth ∨
       (getCurrentMouseOffset env.target).mouseY + (defaultOffsetOf env p).t + (oy : ℚ) < 0 ∨
       (getCurrentMouseOffset env.target).mouseY + (defaultOffsetOf env p).b + (oy : ℚ) > env.innerHeight) := by
  simp [outside, tipOffsetLeft, tipOffsetRight, tipOffsetTop, tipOffsetBottom, qltB, qgtB,
    or_assoc]

lemma inside_extras_iff (env : TooltipEnv) (ox oy : ℤ) (p : Place) :
    inside env ⟨some ox, some oy⟩ p = true ↔
      ¬((getCurrentMouseOffset env.target).mouseX + (defaultOffsetOf env p).l + (ox : ℚ) < 0 ∨
        (getCurrentMouseOffset env.target).mouseX + (defaultOffsetOf env p).r + (ox : ℚ) > env.innerWidth ∨
        (getCurrentMouseOffset env.target).mouseY + (defaultOffsetOf env p).t + (oy : ℚ) < 0 ∨
        (getCurrentMouseOffset env.target).mouseY + (defaultOffsetOf env p).b + (oy : ℚ) > env.innerHeight) := by
  rw [← outside_extras_iff]
  simp [inside]

lemma outside_of_inside_false {env : TooltipEnv} {ex : Extras} {d : Place}
    (h : inside env ex d = false) : outside env ex d = true := by
  simpa [inside] using h

lemma newPlace_of_inside {env : TooltipEnv} {ex : Extras} {d : Place}
    (h : inside env ex d = true) : newPlace env ex d = some d := by
  simp [newPlace, h]

lemma newPlace_of_fallback {env : TooltipEnv} {ex : Extras} {d p : Place}
    (h : inside env ex d = false) (hh : (insideList env ex).head? = some p) :
    newPlace env ex d = some p := by
  have hout : outside env ex d = true := outside_of_inside_false h
  have hlen : (insideList env ex).length > 0 := by
    cases hl : insideList env ex with
    | nil => rw [hl] at hh; simp at hh
    | cons a l => simp
  rw [newPlace, if_neg (by simp [h]), if_pos]
  · exact hh
  · simp [hlen, hout]

lemma newPlace_of_all_outside {env : TooltipEnv} {ex : Extras} (d : Place)
    (h : ∀ p, outside env ex p = true) : newPlace env ex d = none := by
  have hin : ∀ p, inside env ex p = false := fun p => by simp [inside, h p]
  have hlist : insideList env ex = [] := by
    simp [insideList, placeOrder, List.filter, hin]
  rw [newPlace, if_neg (by simp [hin d]), if_neg]
  simp [hlist]

lemma getTooltipPosition_ok {env : TooltipEnv} {d p : Place} {offset : OffsetArg}
    {ex : Extras} (h : calculateOffset offset = .ok ex)
    (hp : newPlace env ex d = some p) :
    getTooltipPosition env d offset = .ok ⟨p, positionFor env ex p⟩ := by
  simp [getTooltipPosition, h, hp]

lemma getTooltipPosition_undef {env : TooltipEnv} {d : Place} {offset : OffsetArg}
    {ex : Extras} (h : calculateOffset offset = .ok ex)
    (hp : newPlace env ex d = none) :
    getTooltipPosition env d offset = .error .undefinedPlace := by
  simp [getTooltipPosition, h, hp]

lemma jsTrunc_nonneg {x : ℚ} (h : 0 ≤ x) : 0 ≤ jsTrunc x := by
  rw [jsTrunc, if_neg (by exact not_lt.mpr h)]
  exact Int.floor_nonneg.mpr h

/-! ### Concrete inputs used by the witnesses -/

/-- A tiny viewport with a large tooltip: every side is outside. -/
def envAllOut : TooltipEnv :=
  { node := ⟨300, 300, 0, 0⟩, target := ⟨10, 10, 45, 45⟩
    innerWidth := 100, innerHeight := 100 }

/-- The example of the spec: target 100x40 near the viewport center,
tooltip 120x30, comfortably inside a 1000x1000 viewport. -/
def envNorm : TooltipEnv :=
  { node := ⟨120, 30, 0, 0⟩, target := ⟨100, 40, 480, 450⟩
    innerWidth := 1000, innerHeight := 1000 }

/-- A target pinned at the viewport top edge. -/
def envPin : TooltipEnv :=
  { node := ⟨120, 30, 0, 0⟩, target := ⟨100, 40, 0, 450⟩
    innerWidth := 1000, innerHeight := 1000 }

/-! ### Claims -/

/-- Claim C1, counterexample.  With every side outside the viewport
(large tooltip, small viewport) and desired side `top`, `getTooltipPosition`
does not return the desired side with off-screen coordinates: the
`undefined` chosen place flows into the offset-table lookup and the call
raises, contradicting the claim that this case is not an error. -/
theorem claim_C1_counterexample :
    outside envAllOut ⟨some 0, some 0⟩ .top = true ∧
    outside envAllOut ⟨some 0, some 0⟩ .bottom = true ∧
    outside envAllOut ⟨some 0, some 0⟩ .left = true ∧
    outside envAllOut ⟨some 0, some 0⟩ .right = true ∧
    getTooltipPosition envAllOut .top (.val (.obj [])) = .error .undefinedPlace := by
  have hout : ∀ p, outside envAllOut ⟨some 0, some 0⟩ p = true := by
    intro p
    cases p <;>
      · rw [outside_extras_iff]
        norm_num [getCurrentMouseOffset, getDimensions, defaultOffsetOf,
          getDefaultPosition, envAllOut, jsTrunc, triangleHeight]
  exact ⟨hout .top, hout .bottom, hout .left, hout .right,
    getTooltipPosition_undef rfl (newPlace_of_all_outside .top hout)⟩

/-- Claim C1, amended.  When no side is fully inside the viewport, the two
guarded assignments to `newPlace` both fail and the chosen place is left
undefined; the subsequent offset-table lookup then raises, so the call
fails instead of returning the desired side with off-screen coordinates.
(Whenever the function does return, the returned place is a member of the
fixed 4-element direction set, which is the type `Place`.) -/
theorem claim_C1 (env : TooltipEnv) (d : Place) (offset : OffsetArg)
    (ex : Extras) (h : calculateOffset offset = .ok ex)
    (hout : ∀ p, outside env ex p = true) :
    getTooltipPosition env d offset = .error .undefinedPlace :=
  getTooltipPosition_undef h (newPlace_of_all_outside d hout)

/-- Claim C1, witness: the amended theorem applied to the concrete
all-outside input. -/
theorem claim_C1_witness :
    getTooltipPosition envAllOut .top (.val (.obj [])) = .error .undefinedPlace :=
  claim_C1 envAllOut .top (.val (.obj [])) ⟨some 0, some 0⟩ rfl
    (fun p => by
      cases p <;>
        · rw [outside_extras_iff]
          norm_num [getCurrentMouseOffset, getDimensions, defaultOffsetOf,
            getDefaultPosition, envAllOut, jsTrunc, triangleHeight])

/-- Claim C2.  When the extra offsets computed from the offset argument are
`ex`, the chosen side is the desired side whenever that side is inside the
viewport, and otherwise (when some side is inside) it is the first inside
side in the fixed order `top, bottom, left, right`. -/
theorem claim_C2 (env : TooltipEnv) (d : Place) (offset : OffsetArg)
    (ex : Extras) (h : calculateOffset offset = .ok ex) :
    (inside env ex d = true →
      getTooltipPosition env d offset = .ok ⟨d, positionFor env ex d⟩) ∧
    (inside env ex d = false → ∀ p, (insideList env ex).head? = some p →
      getTooltipPosition env d offset = .ok ⟨p, positionFor env ex p⟩) :=
  ⟨fun hin => getTooltipPosition_ok h (newPlace_of_inside hin),
   fun hin p hp => getTooltipPosition_ok h (newPlace_of_fallback hin hp)⟩

/-- Claim C2, witness: in the comfortable viewport the desired side `top`
is inside and is returned unchanged. -/
theorem claim_C2_witness :
    getTooltipPosition envNorm .top (.val (.obj [])) =
      .ok ⟨.top, positionFor envNorm ⟨some 0, some 0⟩ .top⟩ :=
  (claim_C2 envNorm .top (.val (.obj [])) ⟨some 0, some 0⟩ rfl).1 (by
    rw [inside_extras_iff]
    norm_num [getCurrentMouseOffset, getDimensions, defaultOffsetOf,
      getDefaultPosition, envNorm, jsTrunc, triangleHeight])

/-- Claim C3.  With numeric extra offsets `ox, oy`, a side `p` is outside
exactly when its left edge is negative, its right edge exceeds the
viewport width, its top edge is negative, or its bottom edge exceeds the
viewport height, where each edge is the anchor coordinate plus the
offset-table entry for `p` plus the extra offset; `inside` is the
negation of `outside`. -/
theorem claim_C3 (env : TooltipEnv) (ox oy : ℤ) (p : Place) :
    (outside env ⟨some ox, some oy⟩ p = true ↔
      ((getCurrentMouseOffset env.target).mouseX + (defaultOffsetOf env p).l + (ox : ℚ) < 0 ∨
       (getCurrentMouseOffset env.target).mouseX + (defaultOffsetOf env p).r + (ox : ℚ) > env.innerWidth ∨
       (getCurrentMouseOffset env.target).mouseY + (defaultOffsetOf env p).t + (oy : ℚ) < 0 ∨
       (getCurrentMouseOffset env.target).mouseY + (defaultOffsetOf env p).b + (oy : ℚ) > env.innerHeight)) ∧
    inside env ⟨some ox, some oy⟩ p = !(outside env ⟨some ox, some oy⟩ p) :=
  ⟨outside_extras_iff env ox oy p, rfl⟩

/-- Claim C4.  With the target pinned at the viewport top edge, zero extra
offsets, a nonnegative tooltip height and the bottom side inside the
viewport, the top side is outside because its top edge is negative, and
the returned side is `bottom`, the first inside candidate in the fixed
order. -/
theorem claim_C4 (env : TooltipEnv) (offset : OffsetArg)
    (htop : env.target.top = 0)
    (hnode : 0 ≤ env.node.height)
    (hoff : calculateOffset offset = .ok ⟨some 0, some 0⟩)
    (hbot : inside env ⟨some 0, some 0⟩ .bottom = true) :
    outside env ⟨some 0, some 0⟩ .top = true ∧
    getTooltipPosition env .top offset =
      .ok ⟨.bottom, positionFor env ⟨some 0, some 0⟩ .bottom⟩ := by
  have hph : (0 : ℤ) ≤ (getDimensions env.node).height := by
    simpa [getDimensions] using jsTrunc_nonneg hnode
  have htop0 : jsTrunc env.target.top = 0 := by
    rw [htop]; simp [jsTrunc]
  have houtTop : outside env ⟨some 0, some 0⟩ .top = true := by
    rw [outside_extras_iff]
    refine Or.inr (Or.inr (Or.inl ?_))
    have hmy : (getCurrentMouseOffset env.target).mouseY =
        ((getDimensions env.target).height : ℚ) / 2 := by
      simp [getCurrentMouseOffset, getDimensions, htop0]
    rw [hmy]
    show ((jsTrunc env.target.height : ℚ)) / 2 +
        (defaultOffsetOf env .top).t + ((0 : ℤ) : ℚ) < 0
    have hth : (defaultOffsetOf env .top).t =
        -(((getDimensions env.target).height : ℚ) / 2 +
          ((getDimensions env.node).height : ℚ) + triangleHeight) := rfl
    rw [hth]
    have : (0 : ℚ) ≤ ((getDimensions env.node).height : ℚ) := by
      exact_mod_cast hph
    simp only [getDimensions, triangleHeight] at *
    push_cast
    linarith
  refine ⟨houtTop, ?_⟩
  have hinTop : inside env ⟨some 0, some 0⟩ .top = false := by
    simp [inside, houtTop]
  have hhead : (insideList env ⟨some 0, some 0⟩).head? = some .bottom := by
    simp [insideList, placeOrder, List.filter, hinTop, hbot]
  exact getTooltipPosition_ok hoff (newPlace_of_fallback hinTop hhead)

/-- Claim C4, witness: the concrete pinned-at-top input. -/
theorem claim_C4_witness :
    outside envPin ⟨some 0, some 0⟩ .top = true ∧
    getTooltipPosition envPin .top (.val (.obj [])) =
      .ok ⟨.bottom, positionFor envPin ⟨some 0, some 0⟩ .bottom⟩ :=
  claim_C4 envPin (.val (.obj [])) rfl (by norm_num [envPin]) rfl (by
    rw [inside_extras_iff]
    norm_num [getCurrentMouseOffset, getDimensions, defaultOffsetOf,
      getDefaultPosition, envPin, jsTrunc, triangleHeight])

/-- The per-side offset table written exactly as the specification words
it: `top` spans horizontally centered on the target and vertically fully
above it, `bottom` mirrors `top` below the target, `left` spans vertically
centered and horizontally fully left of the target with the right edge
nudged inward by the 6px triangle constant, `right` mirrors `left`. -/
def specDefaultPosition (targetWidth targetHeight tipWidth tipHeight : ℤ) :
    Place → EdgeOffsets
  | .top =>
    { l := -((tipWidth : ℚ) / 2), r := (tipWidth : ℚ) / 2
      t := -((targetHeight : ℚ) / 2 + (tipHeight : ℚ) + 6)
      b := -((targetHeight : ℚ) / 2) }
  | .bottom =>
    { l := -((tipWidth : ℚ) / 2), r := (tipWidth : ℚ) / 2
      t := (targetHeight : ℚ) / 2 + 6
      b := (targetHeight : ℚ) / 2 + (tipHeight : ℚ) }
  | .left =>
    { l := -((tipWidth : ℚ) + (targetWidth : ℚ) / 2)
      r := -((targetWidth : ℚ) / 2) + 6
      t := -((tipHeight : ℚ) / 2), b := (tipHeight : ℚ) / 2 }
  | .right =>
    { l := (targetWidth : ℚ) / 2 + 6
      r := (tipWidth : ℚ) + (targetWidth : ℚ) / 2
      t := -((tipHeight : ℚ) / 2), b := (tipHeight : ℚ) / 2 }

/-- Claim C5.  The offset table computed by `getDefaultPosition` equals
the fixed per-side formulas of the specification, with triangle-pointer
constant 6. -/
theorem claim_C5 (targetWidth targetHeight tipWidth tipHeight : ℤ) :
    getDefaultPosition targetWidth targetHeight tipWidth tipHeight =
      specDefaultPosition targetWidth targetHeight tipWidth tipHeight := by
  funext p
  cases p <;> simp [getDefaultPosition, specDefaultPosition, triangleHeight]

/-- Claim C6.  Whenever a side is chosen (the call returns `.ok`), the
returned position is the chosen side's absolute left and top edges made
relative to the target's raw bounding-box corner and truncated to
integers. -/
theorem claim_C6 (env : TooltipEnv) (d : Place) (offset : OffsetArg)
    (ex : Extras) (r : PlacementResult)
    (h : calculateOffset offset = .ok ex)
    (hr : getTooltipPosition env d offset = .ok r) :
    r.position.left =
      (tipOffsetLeft env ex r.place).map (fun v => jsTrunc (v - env.target.left)) ∧
    r.position.top =
      (tipOffsetTop env ex r.place).map (fun v => jsTrunc (v - env.target.top)) := by
  simp only [getTooltipPosition, h] at hr
  cases hp : newPlace env ex d with
  | none => rw [hp] at hr; exact absurd hr (by simp)
  | some p =>
    rw [hp] at hr
    have hr2 : (⟨p, positionFor env ex p⟩ : PlacementResult) = r := Except.ok.inj hr
    rw [← hr2]
    exact ⟨rfl, rfl⟩

/-- Claim C6, witness: the concrete comfortable input, with the position
computed by the edge formulas. -/
theorem claim_C6_witness :
    (⟨.top, positionFor envNorm ⟨some 0, some 0⟩ .top⟩ : PlacementResult).position.left =
      (tipOffsetLeft envNorm ⟨some 0, some 0⟩ .top).map
        (fun v => jsTrunc (v - envNorm.target.left)) ∧
    (⟨.top, positionFor envNorm ⟨some 0, some 0⟩ .top⟩ : PlacementResult).position.top =
      (tipOffsetTop envNorm ⟨some 0, some 0⟩ .top).map
        (fun v => jsTrunc (v - envNorm.target.top)) :=
  claim_C6 envNorm .top (.val (.obj [])) ⟨some 0, some 0⟩
    ⟨.top, positionFor envNorm ⟨some 0, some 0⟩ .top⟩ rfl
    (getTooltipPosition_ok rfl (newPlace_of_inside (by
      rw [inside_extras_iff]
      norm_num [getCurrentMouseOffset, getDimensions, defaultOffsetOf,
        getDefaultPosition, envNorm, jsTrunc, triangleHeight])))

/-- Claim C7.  The extra offsets computed for `{top: 10}` shift every
side's Y edge coordinate by -10 relative to the empty offset, `{right: 5}`
shifts every side's X edge coordinate by +5, and in general a `top`/`left`
entry subtracts its parsed value from the respective axis accumulator
while a `bottom`/`right` entry adds it. -/
theorem claim_C7 :
    calculateOffset (.val (.obj [("top", JVal.num 10)])) = .ok ⟨some 0, some (-10)⟩ ∧
    calculateOffset (.val (.obj [("right", JVal.num 5)])) = .ok ⟨some 5, some 0⟩ ∧
    calculateOffset (.val (.obj [])) = .ok ⟨some 0, some 0⟩ ∧
    (∀ env p, tipOffsetTop env ⟨some 0, some (-10)⟩ p =
      (tipOffsetTop env ⟨some 0, some 0⟩ p).map (fun y => y - 10)) ∧
    (∀ env p, tipOffsetLeft env ⟨some 5, some 0⟩ p =
      (tipOffsetLeft env ⟨some 0, some 0⟩ p).map (fun x => x + 5)) ∧
    (∀ m v, loopOffsets (.obj (m ++ [("top", v)])) =
      ⟨(loopOffsets (.obj m)).extraOffsetX,
       nsub (loopOffsets (.obj m)).extraOffsetY (parseIntOfValue v)⟩) ∧
    (∀ m v, loopOffsets (.obj (m ++ [("bottom", v)])) =
      ⟨(loopOffsets (.obj m)).extraOffsetX,
       nadd (loopOffsets (.obj m)).extraOffsetY (parseIntOfValue v)⟩) ∧
    (∀ m v, loopOffsets (.obj (m ++ [("left", v)])) =
      ⟨nsub (loopOffsets (.obj m)).extraOffsetX (parseIntOfValue v),
       (loopOffsets (.obj m)).extraOffsetY⟩) ∧
    (∀ m v, loopOffsets (.obj (m ++ [("right", v)])) =
      ⟨nadd (loopOffsets (.obj m)).extraOffsetX (parseIntOfValue v),
       (loopOffsets (.obj m)).extraOffsetY⟩) := by
  refine ⟨rfl, rfl, rfl, ?_, ?_, ?_, ?_, ?_, ?_⟩
  · intro env p
    simp only [tipOffsetTop, Option.map_some', Option.some.injEq, Int.cast_neg,
      Int.cast_ofNat, Int.cast_zero]
    ring
  · intro env p
    simp only [tipOffsetLeft, Option.map_some', Option.some.injEq, Int.cast_ofNat,
      Int.cast_zero]
    ring
  all_goals
    intro m v
    simp only [loopOffsets, forInEntries, List.foldl_append, List.foldl_cons,
      List.foldl_nil]
    simp [offsetStep]

/-- The four offset keys recognized by `calculateOffset`. -/
def isDirKey (k : String) : Bool :=
  k == "top" || k == "bottom" || k == "left" || k == "right"

lemma offsetStep_unrecognized {entry : String × JVal} (acc : Extras)
    (h : isDirKey entry.1 = false) : offsetStep acc entry = acc := by
  have h' := h
  simp only [isDirKey, Bool.or_eq_false_iff, beq_eq_false_iff_ne, ne_eq] at h'
  obtain ⟨⟨⟨h1, h2⟩, h3⟩, h4⟩ := h'
  simp [offsetStep, h1, h2, h3, h4]

lemma foldl_offsetStep_filter :
    ∀ (l : List (String × JVal)) (acc : Extras),
      l.foldl offsetStep acc =
        (l.filter (fun kv => isDirKey kv.1)).foldl offsetStep acc := by
  intro l
  induction l with
  | nil => intro acc; rfl
  | cons a l ih =>
    intro acc
    cases h : isDirKey a.1 with
    | true => simp [List.filter_cons, h, ih]
    | false => simp [List.filter_cons, h, offsetStep_unrecognized acc h, ih]

/-- Claim C10.  The extra offsets computed from a structured offset map
depend only on the entries under the four recognized keys: filtering the
map to those keys leaves the result unchanged, and a map containing only
unrecognized keys behaves exactly like the empty map. -/
theorem claim_C10 (m : List (String × JVal)) :
    loopOffsets (.obj m) =
      loopOffsets (.obj (m.filter (fun kv => isDirKey kv.1))) ∧
    ((∀ kv ∈ m, isDirKey kv.1 = false) →
      loopOffsets (.obj m) = loopOffsets (.obj [])) := by
  constructor
  · simp only [loopOffsets, forInEntries]
    exact foldl_offsetStep_filter m _
  · intro hall
    simp only [loopOffsets, forInEntries]
    rw [foldl_offsetStep_filter m]
    have hnil : m.filter (fun kv => isDirKey kv.1) = [] := by
      rw [List.filter_eq_nil_iff]
      intro kv hkv
      simp [hall kv hkv]
    rw [hnil]

/-- Claim C10, witness: a map with only an unrecognized key behaves like
the empty map. -/
theorem claim_C10_witness :
    loopOffsets (.obj [("foo", JVal.num 3)]) = loopOffsets (.obj []) :=
  (claim_C10 [("foo", JVal.num 3)]).2 (by decide)

/-! ### Stringified offset maps (claim C8) -/

/-- The decimal digit character for `n < 10`. -/
def digitChar (n : ℕ) : Char := Char.ofNat (48 + n)

/-- Decimal digit characters of a natural number, most significant
first. -/
def natDecChars (n : ℕ) : List Char :=
  if h : n < 10 then [digitChar n]
  else natDecChars (n / 10) ++ [digitChar (n % 10)]
termination_by n
decreasing_by exact Nat.div_lt_self (by omega) (by omega)

/-- Decimal characters of an integer. -/
def intDecChars (v : ℤ) : List Char :=
  if v < 0 then '-' :: natDecChars v.natAbs else natDecChars v.natAbs

/-- One `'key':value` member of a single-quoted stringified object
literal. -/
def encodeMemberSQ (kv : String × ℤ) : List Char :=
  singleQuoteChar :: (kv.1.data ++ singleQuoteChar :: ':' :: intDecChars kv.2)

/-- The comma-separated members of a single-quoted stringified object
literal. -/
def encodeMembersSQ : List (String × ℤ) → List Char
  | [] => []
  | [kv] => encodeMemberSQ kv
  | kv :: rest => encodeMemberSQ kv ++ ',' :: encodeMembersSQ rest

/-- A numeric offset map stringified as an object literal with single
quotes in place of double quotes. -/
def stringifySingleQuoted (m : List (String × ℤ)) : String :=
  ⟨'{' :: (encodeMembersSQ m ++ ['}'])⟩

/-- The double-quoted (JSON) counterpart of `encodeMemberSQ`. -/
def encodeMemberDQ (kv : String × ℤ) : List Char :=
  '"' :: (kv.1.data ++ '"' :: ':' :: intDecChars kv.2)

/-- The double-quoted (JSON) counterpart of `encodeMembersSQ`. -/
def encodeMembersDQ : List (String × ℤ) → List Char
  | [] => []
  | [kv] => encodeMemberDQ kv
  | kv :: rest => encodeMemberDQ kv ++ ',' :: encodeMembersDQ rest

/-- Key characters that survive quoting untouched: no quote of either
kind and no backslash. -/
def goodKeyChars (ks : List Char) : Prop :=
  ∀ c ∈ ks, c ≠ singleQuoteChar ∧ c ≠ '"' ∧ c ≠ '\\'

instance (ks : List Char) : Decidable (goodKeyChars ks) :=
  inferInstanceAs (Decidable (∀ c ∈ ks, c ≠ singleQuoteChar ∧ c ≠ '"' ∧ c ≠ '\\'))

/-- A numeric offset map as the JavaScript object `JSON.parse` yields. -/
def jmap (m : List (String × ℤ)) : List (String × JVal) :=
  m.map (fun kv => (kv.1, JVal.num kv.2))

/-! ### Digit and character lemmas -/

lemma ne_of_isDigit {c d : Char} (h : c.isDigit = true)
    (hd : d.isDigit = false) : c ≠ d := by
  intro he
  subst he
  rw [h] at hd
  simp at hd

lemma isWsChar_eq_false_of_isDigit {c : Char} (h : c.isDigit = true) :
    isWsChar c = false := by
  by_contra hc
  rw [Bool.not_eq_false] at hc
  have hcases : c = ' ' ∨ c = '\t' ∨ c = '\n' ∨ c = '\r' := by
    simpa [isWsChar, Bool.or_eq_true, decide_eq_true_eq, or_assoc] using hc
  rcases hcases with h1 | h1 | h1 | h1 <;> subst h1 <;> exact absurd h (by decide)

lemma digitChar_isDigit {n : ℕ} (h : n < 10) : (digitChar n).isDigit = true := by
  interval_cases n <;> decide

lemma digitChar_toNat {n : ℕ} (h : n < 10) : (digitChar n).toNat = 48 + n := by
  interval_cases n <;> decide

lemma natDecChars_ne_nil (n : ℕ) : natDecChars n ≠ [] := by
  rw [natDecChars]
  split <;> simp

lemma natDecChars_all_digits (n : ℕ) : ∀ c ∈ natDecChars n, c.isDigit = true := by
  induction n using Nat.strong_induction_on with
  | _ n ih =>
    rw [natDecChars]
    split
    · next h =>
      intro c hc
      simp only [List.mem_singleton] at hc
      subst hc
      exact digitChar_isDigit h
    · next h =>
      intro c hc
      rw [List.mem_append] at hc
      rcases hc with hc | hc
      · exact ih (n / 10) (Nat.div_lt_self (by omega) (by omega)) c hc
      · simp only [List.mem_singleton] at hc
        subst hc
        exact digitChar_isDigit (Nat.mod_lt _ (by omega))

lemma digitsVal_append_singleton (ds : List Char) (c : Char) :
    digitsVal (ds ++ [c]) = 10 * digitsVal ds + (c.toNat - 48) := by
  simp [digitsVal, List.foldl_append]

lemma digitsVal_natDecChars (n : ℕ) : digitsVal (natDecChars n) = n := by
  induction n using Nat.strong_induction_on with
  | _ n ih =>
    rw [natDecChars]
    split
    · next h =>
      simp only [digitsVal, List.foldl_cons, List.foldl_nil, digitChar_toNat h]
      omega
    · next h =>
      rw [digitsVal_append_singleton,
        ih (n / 10) (Nat.div_lt_self (by omega) (by omega)),
        digitChar_toNat (Nat.mod_lt _ (by omega))]
      omega

/-! ### Parser lemmas on encoder output -/

lemma skipWs_cons {c : Char} (cs : List Char) (h : isWsChar c = false) :
    skipWs (c :: cs) = c :: cs := by
  simp [skipWs, List.dropWhile_cons, h]

lemma takeWhile_digits_append (ds rest : List Char)
    (hds : ∀ c ∈ ds, c.isDigit = true)
    (hrest : ∀ c, rest.head? = some c → c.isDigit = false) :
    (ds ++ rest).takeWhile Char.isDigit = ds ∧
    (ds ++ rest).dropWhile Char.isDigit = rest := by
  induction ds with
  | nil =>
    simp only [List.nil_append]
    cases rest with
    | nil => simp
    | cons c r =>
      have hc := hrest c rfl
      simp [List.takeWhile_cons, List.dropWhile_cons, hc]
  | cons d ds ih =>
    have hd : d.isDigit = true := hds d (by simp)
    have ih2 := ih (fun c hc => hds c (by simp [hc]))
    simp [List.takeWhile_cons, List.dropWhile_cons, hd, ih2.1, ih2.2]

lemma parseDigits_encode (n : ℕ) (rest : List Char)
    (hrest : ∀ c, rest.head? = some c → c.isDigit = false) :
    parseDigits (natDecChars n ++ rest) = some (n, rest) := by
  obtain ⟨ht, hd⟩ :=
    takeWhile_digits_append (natDecChars n) rest (natDecChars_all_digits n) hrest
  have hne : (natDecChars n).isEmpty = false := by
    cases hl : natDecChars n with
    | nil => exact absurd hl (natDecChars_ne_nil n)
    | cons a l => rfl
  simp [parseDigits, ht, hd, hne, digitsVal_natDecChars]

lemma natDecChars_head_zero (n : ℕ)
    (h : (natDecChars n).head? = some '0') : n = 0 := by
  induction n using Nat.strong_induction_on with
  | _ n ih =>
    rw [natDecChars] at h
    split at h
    · next hlt =>
      simp only [List.head?_cons, Option.some.injEq] at h
      have htn := digitChar_toNat hlt
      rw [h] at htn
      have h48 : ('0' : Char).toNat = 48 := by decide
      rw [h48] at htn
      omega
    · next hge =>
      cases hnc : natDecChars (n / 10) with
      | nil => exact absurd hnc (natDecChars_ne_nil _)
      | cons a l =>
        rw [hnc, List.cons_append, List.head?_cons] at h
        have h0 : (natDecChars (n / 10)).head? = some '0' := by
          rw [hnc, List.head?_cons, h]
        have := ih (n / 10) (Nat.div_lt_self (by omega) (by omega)) h0
        omega

lemma parseIntPart_encode (n : ℕ) (rest : List Char)
    (hrest : ∀ c, rest.head? = some c → c.isDigit = false) :
    parseIntPart (natDecChars n ++ rest) = some (n, rest) := by
  obtain ⟨ht, hd⟩ :=
    takeWhile_digits_append (natDecChars n) rest (natDecChars_all_digits n) hrest
  have hne : (natDecChars n).isEmpty = false := by
    cases hl : natDecChars n with
    | nil => exact absurd hl (natDecChars_ne_nil n)
    | cons a l => rfl
  have hlz : ¬((natDecChars n).head? = some '0' ∧ (natDecChars n).length ≠ 1) := by
    rintro ⟨hh, hlen⟩
    have h0 := natDecChars_head_zero n hh
    subst h0
    have hnz : natDecChars 0 = [digitChar 0] := by rw [natDecChars]; simp
    exact hlen (by rw [hnz]; rfl)
  simp [parseIntPart, ht, hd, hne, hlz, digitsVal_natDecChars]

lemma parseFracPart_skip (cs : List Char)
    (h : ∀ c, cs.head? = some c → c ≠ '.') :
    parseFracPart cs = some (0, 0, cs) := by
  cases cs with
  | nil => rfl
  | cons c rest => simp [parseFracPart, h c rfl]

lemma parseExpPart_skip (cs : List Char)
    (h : ∀ c, cs.head? = some c → c ≠ 'e' ∧ c ≠ 'E') :
    parseExpPart cs = some (0, cs) := by
  cases cs with
  | nil => rfl
  | cons c rest => simp [parseExpPart, (h c rfl).1, (h c rfl).2]

lemma jsonNumMag_id (I : ℕ) : jsonNumMag I 0 0 0 = I := by
  simp [jsonNumMag]

lemma parseNumMag_encode (n : ℕ) (rest : List Char)
    (hrest : ∀ c, rest.head? = some c →
      c.isDigit = false ∧ c ≠ '.' ∧ c ≠ 'e' ∧ c ≠ 'E') :
    parseNumMag (natDecChars n ++ rest) = some (n, rest) := by
  rw [parseNumMag, parseIntPart_encode n rest (fun c hc => (hrest c hc).1)]
  simp [parseFracPart_skip rest (fun c hc => (hrest c hc).2.1),
    parseExpPart_skip rest
      (fun c hc => ⟨(hrest c hc).2.2.1, (hrest c hc).2.2.2⟩),
    jsonNumMag_id]

lemma parseNumber_encode (v : ℤ) (rest : List Char)
    (hrest : ∀ c, rest.head? = some c →
      c.isDigit = false ∧ c ≠ '.' ∧ c ≠ 'e' ∧ c ≠ 'E') :
    parseNumber (intDecChars v ++ rest) = some (v, rest) := by
  by_cases hv : v < 0
  · rw [intDecChars, if_pos hv]
    rw [List.cons_append, parseNumber, if_pos rfl,
      parseNumMag_encode v.natAbs rest hrest]
    simp only [Option.map_some']
    have h1 : -(v.natAbs : ℤ) = v := by omega
    rw [h1]
  · rw [intDecChars, if_neg hv]
    cases hnc : natDecChars v.natAbs with
    | nil => exact absurd hnc (natDecChars_ne_nil _)
    | cons c cs =>
      have hcd : c.isDigit = true :=
        natDecChars_all_digits _ c (by rw [hnc]; simp)
      rw [List.cons_append, parseNumber, if_neg (ne_of_isDigit hcd (by decide))]
      rw [← List.cons_append, ← hnc, parseNumMag_encode v.natAbs rest hrest]
      simp only [Option.map_some']
      have h1 : (v.natAbs : ℤ) = v := by omega
      rw [h1]

lemma parseStrChars_key (ks rest : List Char)
    (h : ∀ c ∈ ks, c ≠ '"' ∧ c ≠ '\\') :
    parseStrChars (ks ++ '"' :: rest) = some (ks, rest) := by
  induction ks with
  | nil =>
    rw [List.nil_append, parseStrChars.eq_def]
    simp
  | cons c ks ih =>
    obtain ⟨h1, h2⟩ := h c (by simp)
    have ih2 := ih (fun c hc => h c (by simp [hc]))
    rw [List.cons_append, parseStrChars.eq_def]
    simp only []
    rw [if_neg h1, if_neg h2, ih2]

lemma rqChar_of_ne {c : Char} (h : c ≠ singleQuoteChar) : rqChar c = c :=
  if_neg h

lemma map_rqChar_id {l : List Char} (h : ∀ c ∈ l, c ≠ singleQuoteChar) :
    l.map rqChar = l := by
  induction l with
  | nil => rfl
  | cons c l ih =>
    rw [List.map_cons, rqChar_of_ne (h c (by simp)),
      ih (fun c hc => h c (by simp [hc]))]

lemma intDecChars_no_sq (v : ℤ) : ∀ c ∈ intDecChars v, c ≠ singleQuoteChar := by
  intro c hc
  rw [intDecChars] at hc
  split at hc
  · rcases List.mem_cons.mp hc with h | h
    · subst h; decide
    · exact ne_of_isDigit (natDecChars_all_digits _ c h) (by decide)
  · exact ne_of_isDigit (natDecChars_all_digits _ c hc) (by decide)

lemma rq_encodeMemberSQ (kv : String × ℤ) (h : goodKeyChars kv.1.data) :
    (encodeMemberSQ kv).map rqChar = encodeMemberDQ kv := by
  rw [encodeMemberSQ, encodeMemberDQ, List.map_cons, List.map_append,
    List.map_cons, List.map_cons]
  rw [map_rqChar_id (fun c hc => (h c hc).1),
    map_rqChar_id (intDecChars_no_sq kv.2)]
  have hsq : rqChar singleQuoteChar = '"' := if_pos rfl
  have hcolon : rqChar ':' = ':' := by decide
  rw [hsq, hcolon]

lemma rq_encodeMembersSQ (m : List (String × ℤ))
    (h : ∀ kv ∈ m, goodKeyChars kv.1.data) :
    (encodeMembersSQ m).map rqChar = encodeMembersDQ m := by
  induction m with
  | nil => rfl
  | cons kv rest ih =>
    cases rest with
    | nil =>
      rw [encodeMembersSQ, encodeMembersDQ]
      exact rq_encodeMemberSQ kv (h kv (by simp))
    | cons kv2 rest2 =>
      rw [encodeMembersSQ, encodeMembersDQ, List.map_append, List.map_cons]
      rw [rq_encodeMemberSQ kv (h kv (by simp)),
        ih (fun e he => h e (by simp [List.mem_cons] at he ⊢; tauto))]
      have hcomma : rqChar ',' = ',' := by decide
      rw [hcomma]
      all_goals simp

lemma replaceQuotes_stringify (m : List (String × ℤ))
    (h : ∀ kv ∈ m, goodKeyChars kv.1.data) :
    replaceQuotes (stringifySingleQuoted m) =
      ⟨'{' :: (encodeMembersDQ m ++ ['}'])⟩ := by
  rw [replaceQuotes, stringifySingleQuoted]
  congr 1
  show ('{' :: (encodeMembersSQ m ++ ['}'])).map rqChar =
    '{' :: (encodeMembersDQ m ++ ['}'])
  rw [List.map_cons, List.map_append, rq_encodeMembersSQ m h]
  have h1 : rqChar '{' = '{' := by decide
  have h2 : ['}'].map rqChar = ['}'] := by decide
  rw [h1, h2]

lemma objInsert_append {fields : List (String × JVal)} {k : String} (v : JVal)
    (h : ∀ e ∈ fields, e.1 ≠ k) : objInsert fields k v = fields ++ [(k, v)] := by
  rw [objInsert, if_neg]
  simp only [List.any_eq_true, not_exists, not_and, Bool.not_eq_true]
  intro kv hkv
  exact beq_eq_false_iff_ne.mpr (h kv hkv)

lemma parseValue_intDec (v : ℤ) (rest : List Char) (f : ℕ)
    (hrest : ∀ c, rest.head? = some c →
      c.isDigit = false ∧ c ≠ '.' ∧ c ≠ 'e' ∧ c ≠ 'E') :
    parseValue (f + 1) (intDecChars v ++ rest) = some (.num v, rest) := by
  have hnum := parseNumber_encode v rest hrest
  have hhead : ∃ c0 cs0, intDecChars v ++ rest = c0 :: cs0 ∧
      (c0 = '-' ∨ c0.isDigit = true) := by
    rw [intDecChars]
    split
    · exact ⟨'-', _, rfl, Or.inl rfl⟩
    · cases hnc : natDecChars v.natAbs with
      | nil => exact absurd hnc (natDecChars_ne_nil _)
      | cons c cs =>
        exact ⟨c, cs ++ rest, by simp,
          Or.inr (natDecChars_all_digits _ c (by rw [hnc]; simp))⟩
  obtain ⟨c0, cs0, heq, hc0⟩ := hhead
  rw [heq] at hnum ⊢
  have hnws : isWsChar c0 = false := by
    rcases hc0 with h | h
    · subst h; decide
    · exact isWsChar_eq_false_of_isDigit h
  have hne : c0 ≠ '{' ∧ c0 ≠ '[' ∧ c0 ≠ '"' ∧ c0 ≠ 't' ∧ c0 ≠ 'f' ∧ c0 ≠ 'n' := by
    rcases hc0 with h | h
    · subst h
      exact ⟨by decide, by decide, by decide, by decide, by decide, by decide⟩
    · exact ⟨ne_of_isDigit h (by decide), ne_of_isDigit h (by decide),
        ne_of_isDigit h (by decide), ne_of_isDigit h (by decide),
        ne_of_isDigit h (by decide), ne_of_isDigit h (by decide)⟩
  obtain ⟨h1, h2, h3, h4, h5, h6⟩ := hne
  simp only [parseValue]
  rw [skipWs_cons _ hnws]
  simp [h1, h2, h3, h4, h5, h6, hnum]

lemma parseMembers_encode (m : List (String × ℤ)) :
    ∀ (f : ℕ) (acc : List (String × JVal)) (rest : List Char),
      2 * m.length + 1 ≤ f →
      m ≠ [] →
      (∀ kv ∈ m, goodKeyChars kv.1.data) →
      (m.map Prod.fst).Nodup →
      (∀ kv ∈ m, ∀ e ∈ acc, e.1 ≠ kv.1) →
      parseMembers f (encodeMembersDQ m ++ '}' :: rest) acc =
        some (.obj (acc ++ jmap m), rest) := by
  induction m with
  | nil => intro f acc rest _ hne _ _ _; exact absurd rfl hne
  | cons kv m2 ih =>
    intro f acc rest hf _ hkeys hnodup hacc
    obtain ⟨k, v⟩ := kv
    have hlen : 2 * m2.length + 3 ≤ f := by
      simp only [List.length_cons] at hf
      omega
    obtain ⟨f1, rfl⟩ : ∃ f1, f = f1 + 1 := ⟨f - 1, by omega⟩
    have hkd : goodKeyChars k.data := hkeys (k, v) (by simp)
    have hacck : ∀ e ∈ acc, e.1 ≠ k := fun e he => hacc (k, v) (by simp) e he
    have hmk : (⟨k.data⟩ : String) = k := rfl
    cases m2 with
    | nil =>
      obtain ⟨f2, rfl⟩ : ∃ f2, f1 = f2 + 1 := ⟨f1 - 1, by omega⟩
      have hshape : encodeMembersDQ [(k, v)] ++ '}' :: rest =
          '"' :: (k.data ++ '"' :: ':' :: (intDecChars v ++ '}' :: rest)) := by
        simp [encodeMembersDQ, encodeMemberDQ]
      rw [hshape, parseMembers.eq_def]
      simp only []
      rw [skipWs_cons _ (by decide)]
      simp only [if_true]
      rw [parseStrChars_key _ _ (fun c hc => ⟨(hkd c hc).2.1, (hkd c hc).2.2⟩)]
      simp only []
      rw [skipWs_cons _ (by decide)]
      simp only []
      rw [parseValue_intDec v _ f2
        (fun c hc => by
          simp at hc
          subst hc
          exact ⟨by decide, by decide, by decide, by decide⟩)]
      simp only []
      rw [skipWs_cons _ (by decide)]
      simp only []
      rw [hmk, objInsert_append _ hacck]
      simp [jmap]
    | cons kv2 m3 =>
      obtain ⟨f2, rfl⟩ : ∃ f2, f1 = f2 + 1 := ⟨f1 - 1, by omega⟩
      have hshape : encodeMembersDQ ((k, v) :: kv2 :: m3) ++ '}' :: rest =
          '"' :: (k.data ++ '"' :: ':' ::
            (intDecChars v ++ ',' ::
              (encodeMembersDQ (kv2 :: m3) ++ '}' :: rest))) := by
        simp [encodeMembersDQ, encodeMemberDQ]
      have hknotin : k ∉ (kv2 :: m3).map Prod.fst := by
        simp only [List.map_cons] at hnodup
        exact (List.nodup_cons.mp hnodup).1
      have hnodup2 : ((kv2 :: m3).map Prod.fst).Nodup := by
        simp only [List.map_cons] at hnodup
        exact (List.nodup_cons.mp hnodup).2
      have hacc2 : ∀ kvx ∈ kv2 :: m3, ∀ e ∈ acc ++ [(k, JVal.num v)],
          e.1 ≠ kvx.1 := by
        intro kvx hkvx e he
        rcases List.mem_append.mp he with he | he
        · exact hacc kvx (by simp [hkvx]) e he
        · simp only [List.mem_singleton] at he
          subst he
          intro hcontra
          exact hknotin (List.mem_map.mpr ⟨kvx, hkvx, hcontra.symm⟩)
      rw [hshape, parseMembers.eq_def]
      simp only []
      rw [skipWs_cons _ (by decide)]
      simp only [if_true]
      rw [parseStrChars_key _ _ (fun c hc => ⟨(hkd c hc).2.1, (hkd c hc).2.2⟩)]
      simp only []
      rw [skipWs_cons _ (by decide)]
      simp only []
      rw [parseValue_intDec v _ f2
        (fun c hc => by
          simp at hc
          subst hc
          exact ⟨by decide, by decide, by decide, by decide⟩)]
      simp only []
      rw [skipWs_cons _ (by decide)]
      simp only [if_true]
      rw [hmk, objInsert_append _ hacck]
      rw [ih (f2 + 1) (acc ++ [(k, JVal.num v)]) rest
        (by simp only [List.length_cons] at hlen ⊢; omega) (by simp)
        (fun e he => hkeys e (by simp [he]))
        hnodup2 hacc2]
      simp [jmap]

lemma intDecChars_length_pos (v : ℤ) : 1 ≤ (intDecChars v).length := by
  rw [intDecChars]
  split
  · simp
  · cases hnc : natDecChars v.natAbs with
    | nil => exact absurd hnc (natDecChars_ne_nil _)
    | cons a l => simp

lemma encodeMembersDQ_length (m : List (String × ℤ)) :
    4 * m.length ≤ (encodeMembersDQ m).length := by
  induction m with
  | nil => simp [encodeMembersDQ]
  | cons kv m2 ih =>
    have h1 := intDecChars_length_pos kv.2
    cases m2 with
    | nil =>
      simp [encodeMembersDQ, encodeMemberDQ]
      omega
    | cons kv2 m3 =>
      simp [encodeMembersDQ, encodeMemberDQ] at ih ⊢
      omega

lemma jsonParse_stringify (m : List (String × ℤ))
    (hkeys : ∀ kv ∈ m, goodKeyChars kv.1.data)
    (hnodup : (m.map Prod.fst).Nodup) :
    jsonParse (replaceQuotes (stringifySingleQuoted m)) =
      some (.obj (jmap m)) := by
  rw [replaceQuotes_stringify m hkeys]
  cases m with
  | nil => rfl
  | cons kv m2 =>
    obtain ⟨t, ht⟩ : ∃ t, encodeMembersDQ (kv :: m2) = '"' :: t := by
      cases m2 with
      | nil => exact ⟨_, rfl⟩
      | cons a b => exact ⟨_, rfl⟩
    have hlb := encodeMembersDQ_length (kv :: m2)
    rw [jsonParse.eq_def]
    simp only []
    rw [List.length_cons]
    simp only [parseValue]
    rw [skipWs_cons _ (by decide)]
    simp only [if_true]
    have hr0 : encodeMembersDQ (kv :: m2) ++ ['}'] = '"' :: (t ++ ['}']) := by
      rw [ht]; rfl
    rw [hr0, skipWs_cons _ (by decide)]
    simp only []
    rw [if_neg (by decide : ¬(('"' : Char) = '}'))]
    rw [← hr0]
    have hflen : 2 * (kv :: m2).length + 1 ≤
        (encodeMembersDQ (kv :: m2) ++ ['}']).length + 1 := by
      simp only [List.length_append, List.length_cons, List.length_nil] at hlb ⊢
      omega
    rw [parseMembers_encode (kv :: m2) _ [] [] hflen (by simp) hkeys hnodup
      (by simp)]
    all_goals simp [jmap, skipWs]

/-- Claim C8.  A numeric offset map stringified as an object literal with
single quotes in place of double quotes parses identically to its
structured equivalent: the calculator computes the same extra offsets,
and hence every placement computation yields the same result.  Keys are
required to be quote- and backslash-free (the quote normalization would
corrupt them otherwise) and distinct, as in any map. -/
theorem claim_C8 (m : List (String × ℤ))
    (hkeys : ∀ kv ∈ m, goodKeyChars kv.1.data)
    (hnodup : (m.map Prod.fst).Nodup) :
    calculateOffset (.str (stringifySingleQuoted m)) =
      calculateOffset (.val (.obj (jmap m))) ∧
    ∀ env d, getTooltipPosition env d (.str (stringifySingleQuoted m)) =
      getTooltipPosition env d (.val (.obj (jmap m))) := by
  have hco : calculateOffset (.str (stringifySingleQuoted m)) =
      calculateOffset (.val (.obj (jmap m))) := by
    simp only [calculateOffset, jsonParse_stringify m hkeys hnodup]
  exact ⟨hco, fun env d => by simp only [getTooltipPosition, hco]⟩

/-- Claim C8, witness: the theorem applied to the concrete offset map
with a `top` and a `left` entry. -/
theorem claim_C8_witness :
    calculateOffset (.str (stringifySingleQuoted [("top", 3), ("left", -2)])) =
      calculateOffset (.val (.obj (jmap [("top", 3), ("left", -2)]))) :=
  (claim_C8 [("top", 3), ("left", -2)] (by decide) (by decide)).1

end Tooltip
